import Mathlib

/-! XV6 memory management: `mmap`, `munmap` and the page-fault branch of `trap`

A shallow embedding of `sys_mmap`, `add_mmap_region_to_process` and
`sys_munmap` (`xv6-public/sysfile.c`) and of the `trapno == 14` branch of
`trap` (`xv6-public/trap.c`).

Machine integers: a C `uint` or pointer is a `Nat` below `2^32`, a C `int` is
an `Int`; every arithmetic result that C keeps in 32 bits is wrapped with
`to_uint` or `to_int`.  The system calls are modelled from the point where
`argptr`/`argint` have fetched the arguments: the fetched values are the
parameters of the Lean functions.
-/

namespace XV6

/-! ## Machine arithmetic -/

/-- The value of an integer expression stored in a 32-bit `uint` (or pointer). -/
def to_uint (x : Int) : Nat := (x % 4294967296).toNat

/-- The value of an integer expression stored in a 32-bit two's complement `int`. -/
def to_int (x : Int) : Int := (x + 2147483648) % 4294967296 - 2147483648

/-! ## Constants of headers that are not part of the sources at hand -/

/-- Modelled from the spec: `PGSIZE` of the missing `mmu.h`; the spec fixes
"page size = 4096". -/
abbrev PGSIZE : Nat := 4096

/-- Modelled from the spec: `PROT_READ` of the missing `mmap.h` (spec §6: `PROT_READ = 1`). -/
abbrev PROT_READ : Nat := 1

/-- Modelled from the spec: `PROT_WRITE` of the missing `mmap.h` (spec §6: `PROT_WRITE = 2`). -/
abbrev PROT_WRITE : Nat := 2

/-- Modelled from the spec: `MAP_PRIVATE` of the missing `mmap.h` (spec §6: `MAP_PRIVATE = 1`). -/
abbrev MAP_PRIVATE : Nat := 1

/-- Modelled from the spec: `MAP_SHARED` of the missing `mmap.h` (spec §6: `MAP_SHARED = 2`). -/
abbrev MAP_SHARED : Nat := 2

/-- Modelled from the spec: `MAP_ANONYMOUS` of the missing `mmap.h` (spec §6: `MAP_ANONYMOUS = 4`). -/
abbrev MAP_ANONYMOUS : Nat := 4

/-- Modelled from the spec: `MAP_FIXED` of the missing `mmap.h` (spec §6: `MAP_FIXED = 8`). -/
abbrev MAP_FIXED : Nat := 8

/-- Modelled from the spec: the `PRESENT` permission bit of §4.A, `PTE_P` of the
missing `mmu.h`; bit 0 of an x86 page-table entry. -/
abbrev PTE_P : Nat := 1

/-- Modelled from the spec: the `WRITE` permission bit of §4.A, `PTE_W` of the
missing `mmu.h`; bit 1 of an x86 page-table entry. -/
abbrev PTE_W : Nat := 2

/-- Modelled from the spec: the `USER` permission bit of §4.A, `PTE_U` of the
missing `mmu.h`; bit 2 of an x86 page-table entry. -/
abbrev PTE_U : Nat := 4

/-- Modelled from the spec: `KERNBASE` of the missing `memlayout.h`, the offset
between a physical frame and its kernel virtual address. -/
abbrev KERNBASE : Nat := 2147483648

/-- Modelled from the spec: `MAP_FAILED`, "`-1` cast to pointer" (spec §6). -/
abbrev MAP_FAILED : Nat := 4294967295

/-- Modelled from the spec: the macro `PTE_ADDR(pte)` of the missing `mmu.h`,
the frame address held in a page-table entry (`pte & ~0xFFF`). -/
def PTE_ADDR (pte : Nat) : Nat := pte &&& 4294963200

/-- Modelled from the spec: the macro `PGROUNDDOWN(a)` of the missing `mmu.h`,
the address rounded down to a page boundary. -/
def PGROUNDDOWN (a : Nat) : Nat := a / PGSIZE * PGSIZE

/-- Modelled from the spec: the macro `P2V(pa)` of the missing `memlayout.h`. -/
def P2V (pa : Nat) : Nat := (pa + KERNBASE) % 4294967296

/-- Modelled from the spec: the macro `V2P(va)` of the missing `memlayout.h`. -/
def V2P (va : Nat) : Nat := to_uint ((va : Int) - KERNBASE)

/-! ## Data model -/

/-- The record `struct mmap_region`; the field order is that of the compound
literal `{start_addr, aligned_length, prot, flags, 1}` in `sys_mmap`. -/
structure mmap_region where
  addr : Nat
  length : Int
  prot : Int
  flags : Int
  is_used : Int
  deriving DecidableEq, Repr

/-- An open file as far as `mmap` is concerned: whether it may be read. -/
structure file where
  readable : Bool
  deriving DecidableEq, Repr

/-- The state the three functions work on: the fields `mmaps`, `pgdir`,
`killed` and `ofile` of the current process, the free list of the physical
page allocator and the bytes of memory (indexed by kernel virtual address).

`mmaps` has `MAX_MMAPS` entries (the constant is in a missing header; the
capacity is the length of the list).  `pgdir` gives, for a virtual page number,
what `walkpgdir(pgdir, va, 0)` points to: `none` when it returns 0.
`panicked` records that the kernel has stopped in a `panic`. -/
structure kstate where
  mmaps : List mmap_region
  pgdir : Nat → Option Nat
  killed : Int
  ofile : List (Option file)
  freelist : List Nat
  mem : Nat → Nat
  panicked : Bool

/-- Modelled from the spec: `walkpgdir` of the missing `vm.c` called with
`alloc = 0`, the `walk` of §4.A: "Returns the current PTE for `va`" as an
optional handle. -/
def walkpgdir (pgdir : Nat → Option Nat) (va : Nat) : Option Nat :=
  pgdir (va / PGSIZE)

/-- Storing `v` through the pointer that `walkpgdir` returned for `va`. -/
def set_pte (pgdir : Nat → Option Nat) (va : Nat) (v : Nat) : Nat → Option Nat :=
  fun n => if n = va / PGSIZE then some v else pgdir n

/-- Modelled from the spec: `kfree` of the missing `kalloc.c`, the "free one
page" primitive: the frame goes back on the free list. -/
def kfree (s : kstate) (v : Nat) : kstate :=
  { s with freelist := v :: s.freelist }

/-- Modelled from the spec: `kalloc` of the missing `kalloc.c`, the "allocate
one page" primitive: the first free frame, or 0 when there is none. -/
def kalloc (s : kstate) : Nat × kstate :=
  match s.freelist with
  | [] => (0, s)
  | f :: fl => (f, { s with freelist := fl })

/-! ## `sys_munmap` -/

/-- The bound on the iterations of the page-release loop of `sys_munmap`: the
loop variable takes at most `2^20` values (it moves by `PGSIZE` modulo
`2^32`), so a loop that has not left after that many steps never leaves. -/
abbrev UNMAP_FUEL : Nat := 1048577

/-- The loop `for (uint a = unmap_start; a < unmap_end; a += PGSIZE)` of
`sys_munmap`; `none` when the loop never exits (the `uint` `a` wraps round). -/
def unmap_pages : Nat → kstate → Nat → Nat → Option kstate
  | 0, _, _, _ => none
  | fuel + 1, s, a, unmap_end =>
    if a < unmap_end then
      let s1 : kstate :=
        match walkpgdir s.pgdir a with
        | some pte =>
          if pte &&& PTE_P ≠ 0 then
            if PTE_ADDR pte ≠ 0 then
              { kfree s (P2V (PTE_ADDR pte)) with pgdir := set_pte s.pgdir a 0 }
            else s
          else s
        | none => s
      unmap_pages fuel s1 ((a + PGSIZE) % 4294967296) unmap_end
    else some s

/-- The loop `for (int j = 0; j < MAX_MMAPS; j++) if (!mmaps[j].is_used)
{ new_index = j; break; }`; `none` stands for `new_index == -1`. -/
def find_free_slot : List mmap_region → Nat → Option Nat
  | [], _ => none
  | r :: rest, j => if r.is_used = 0 then some j else find_free_slot rest (j + 1)

/-- An assignment to fields of `mmaps[i]`. -/
def modify_slot (l : List mmap_region) (i : Nat) (f : mmap_region → mmap_region) :
    List mmap_region :=
  match l[i]? with
  | some r => l.set i (f r)
  | none => l

/-- The test `(uint)addr + length > start && (uint)addr < end` of `sys_munmap`
on the region `r`. -/
def intersects (r : mmap_region) (addr : Nat) (length : Int) : Prop :=
  to_uint ((addr : Int) + length) > r.addr ∧ addr < to_uint ((r.addr : Int) + r.length)

instance (r : mmap_region) (addr : Nat) (length : Int) : Decidable (intersects r addr length) := by
  unfold intersects; infer_instance

/-- The body of the `if` for the first live region `mmaps[i]` that the request
intersects: release the pages, then adjust the region table. -/
def munmap_region (s : kstate) (i : Nat) (addr : Nat) (length : Int) :
    Option (Int × kstate) :=
  match s.mmaps[i]? with
  | none => none
  | some r =>
  let start := r.addr
  let end_ := to_uint ((start : Int) + r.length)
  let unmap_start := max start addr
  let unmap_end := min end_ (to_uint ((addr : Int) + length))
  match unmap_pages UNMAP_FUEL s unmap_start unmap_end with
  | none => none
  | some s1 =>
    if unmap_start > start ∧ unmap_end < end_ then
      match find_free_slot s1.mmaps 0 with
      | none => some (-1, s1)
      | some new_index =>
        let m1 := modify_slot s1.mmaps new_index (fun q =>
          { q with addr := unmap_end, length := to_int ((end_ : Int) - unmap_end), is_used := 1 })
        let m2 := modify_slot m1 i (fun q =>
          { q with length := to_int ((unmap_start : Int) - start) })
        some (0, { s1 with mmaps := m2 })
    else if unmap_start > start then
      let m1 := modify_slot s1.mmaps i (fun q =>
        { q with length := to_int (q.length - ((unmap_start : Int) - start)) })
      let m2 := modify_slot m1 i (fun q => { q with addr := unmap_start })
      some (0, { s1 with mmaps := m2 })
    else if unmap_end < end_ then
      let m1 := modify_slot s1.mmaps i (fun q =>
        { q with length := to_int (q.length - ((end_ : Int) - unmap_end)) })
      some (0, { s1 with mmaps := m1 })
    else some (0, s1)

/-- The loop `for (int i = 0; i < MAX_MMAPS; i++)` of `sys_munmap`, at index
`i` with the entries `rest` still to visit. -/
def munmap_scan (s : kstate) (addr : Nat) (length : Int) :
    List mmap_region → Nat → Option (Int × kstate)
  | [], _ => some (-1, s)
  | r :: rest, i =>
    if r.is_used ≠ 0 ∧ intersects r addr length then munmap_region s i addr length
    else munmap_scan s addr length rest (i + 1)

/-- The system call `sys_munmap(addr, length)`: the returned `int` and the
state afterwards; `none` when the call never returns. -/
def sys_munmap (s : kstate) (addr : Nat) (length : Int) : Option (Int × kstate) :=
  if addr % PGSIZE ≠ 0 ∨ length ≤ 0 then some (-1, s)
  else munmap_scan s addr length s.mmaps 0

/-! ## `sys_mmap` -/

/-- An entry of the zero-initialised region table. -/
def blank : mmap_region := ⟨0, 0, 0, 0, 0⟩

/-- The loop of `add_mmap_region_to_process`: the first entry with
`p->mmaps[i] == 0` receives the region; `none` when there is no such entry.
The source compares the entry itself with 0: it is read as "the entry still
is the zero-initialised one". -/
def add_region_loop (region : mmap_region) : List mmap_region → Option (List mmap_region)
  | [] => none
  | r :: rest =>
    if r = blank then some (region :: rest)
    else (add_region_loop region rest).map (fun t => r :: t)

/-- The function `add_mmap_region_to_process(p, region)`: 0 and the table with
the region stored, or -1. -/
def add_mmap_region_to_process (s : kstate) (region : mmap_region) : Int × kstate :=
  match add_region_loop region s.mmaps with
  | some m => (0, { s with mmaps := m })
  | none => (-1, s)

/-- The overlap test of `sys_mmap` (the same in both branches) of the span
`[start_addr, new_end)` against the existing region `q`. -/
def overlap_test (q : mmap_region) (start_addr new_end : Nat) : Prop :=
  (start_addr ≥ q.addr ∧ start_addr < to_uint ((q.addr : Int) + q.length)) ∨
  (new_end > q.addr ∧ new_end ≤ to_uint ((q.addr : Int) + q.length))

instance (q : mmap_region) (a b : Nat) : Decidable (overlap_test q a b) := by
  unfold overlap_test; infer_instance

/-- The inner loop of the `MAP_FIXED` branch: `true` when some live region
makes it `return (void *) -1`. -/
def fixed_scan (start_addr new_end : Nat) : List mmap_region → Bool
  | [] => false
  | q :: rest =>
    if q.is_used ≠ 0 ∧ overlap_test q start_addr new_end then true
    else fixed_scan start_addr new_end rest

/-- The inner loop of the branch without `MAP_FIXED`, at index `j`: the value
of `found` when the loop is left.  An overlap sets `found = 0` and breaks;
nothing sets it to 1. -/
def nonfixed_scan (i : Nat) (start_addr new_end : Nat) (found : Int) :
    List mmap_region → Nat → Int
  | [], _ => found
  | q :: rest, j =>
    if (q.is_used ≠ 0 ∧ j ≠ i) ∧ overlap_test q start_addr new_end then 0
    else nonfixed_scan i start_addr new_end found rest (j + 1)

/-- The loop `for (i = 0; i < MAX_MMAPS; i++)` of `sys_mmap`, at index `i` with
the entries `rest` still to visit.  `range` is what `find_suitable_range(length)`
returns (the function is not in the sources), `start_addr0` the value the
uninitialised local `start_addr` happens to hold and `is_used0` the value the
never assigned field `region.is_used` happens to hold. -/
def mmap_scan (s : kstate) (addr : Nat) (length prot flags : Int) (aligned_length : Int)
    (range start_addr0 : Nat) (is_used0 : Int) : List mmap_region → Nat → Nat × kstate
  | [], _ => (MAP_FAILED, s)
  | r :: rest, i =>
    if r.is_used = 0 then
      if to_uint flags &&& MAP_ANONYMOUS ≠ 0 then
        let addr1 := if to_uint flags &&& MAP_FIXED = 0 then range else addr
        if to_uint flags &&& MAP_FIXED = 0 ∧ addr1 = 0 then (MAP_FAILED, s)
        else
          let region : mmap_region :=
            { addr := addr1, length := length, prot := prot, flags := flags,
              is_used := is_used0 }
          let res := add_mmap_region_to_process s region
          if res.1 < 0 then (MAP_FAILED, res.2) else (addr1, res.2)
      else if to_uint flags &&& MAP_FIXED ≠ 0 then
        let start_addr := addr
        let new_end := to_uint ((start_addr : Int) + aligned_length)
        if fixed_scan start_addr new_end s.mmaps then (MAP_FAILED, s)
        else
          let region : mmap_region :=
            { addr := start_addr, length := aligned_length, prot := prot, flags := flags,
              is_used := 1 }
          (start_addr, { s with mmaps := s.mmaps.set i region })
      else
        let new_end := to_uint ((start_addr0 : Int) + aligned_length)
        let found := nonfixed_scan i start_addr0 new_end 0 s.mmaps 0
        if found ≠ 0 then
          let region : mmap_region :=
            { addr := start_addr0, length := aligned_length, prot := prot, flags := flags,
              is_used := 1 }
          (start_addr0, { s with mmaps := s.mmaps.set i region })
        else mmap_scan s addr length prot flags aligned_length range start_addr0 is_used0
          rest (i + 1)
    else mmap_scan s addr length prot flags aligned_length range start_addr0 is_used0
      rest (i + 1)

/-- The system call `sys_mmap(addr, length, prot, flags, fd, offset)`: the
returned pointer and the state afterwards.  For `range`, `start_addr0` and
`is_used0` see `mmap_scan`. -/
def sys_mmap (s : kstate) (addr : Nat) (length prot flags fd _offset : Int)
    (range start_addr0 : Nat) (is_used0 : Int) : Nat × kstate :=
  if length ≤ 0 ∨ to_uint prot &&& (4294967295 - (PROT_READ ||| PROT_WRITE)) ≠ 0 ∨
      (to_uint flags &&& MAP_ANONYMOUS ≠ 0 ∧ fd ≠ -1) then (MAP_FAILED, s)
  else
    let aligned_length := to_int (Int.tdiv (to_int (length + PGSIZE - 1)) PGSIZE * PGSIZE)
    if to_uint flags &&& MAP_FIXED ≠ 0 ∧ addr % PGSIZE ≠ 0 then (MAP_FAILED, s)
    else mmap_scan s addr length prot flags aligned_length range start_addr0 is_used0
      s.mmaps 0

/-! ## The page-fault branch of `trap` -/

/-- Modelled from the spec: `memset(mem, 0, PGSIZE)` of the missing `string.c`,
"zero the frame" (§4.F). -/
def memset_page (s : kstate) (dst : Nat) : kstate :=
  { s with mem := fun x => if dst ≤ x ∧ x < dst + PGSIZE then 0 else s.mem x }

/-- Modelled from the spec: `memmove(mem, (char*)a, PGSIZE)` of the missing
`string.c`, "copy the old page's contents" (§4.F); the bytes of the user page
are those of the frame its entry `pte` maps. -/
def memmove_page (s : kstate) (dst : Nat) (pte : Nat) : kstate :=
  { s with mem := fun x =>
      if dst ≤ x ∧ x < dst + PGSIZE then s.mem (P2V (PTE_ADDR pte) + (x - dst))
      else s.mem x }

/-- Modelled from the spec: `mappages(pgdir, va, PGSIZE, pa, perm)` of the
missing `vm.c`, the `map_page` of §4.A: "Installs a PTE; fails only on
intermediate-allocation failure".  Where `walkpgdir` has no entry for `va` a
frame for the intermediate table is taken from the allocator.  The spec has
the caller guarantee that `va` is "not already mapped": on an entry that is
present nothing is installed and the kernel stops, the `panic("remap")` of
xv6, recorded in `panicked`.  `none` stands for the result -1. -/
def mappages (s : kstate) (va pa perm : Nat) : Option kstate :=
  match walkpgdir s.pgdir va with
  | some pte =>
    if pte &&& PTE_P ≠ 0 then some { s with panicked := true }
    else some { s with pgdir := set_pte s.pgdir va (pa ||| perm ||| PTE_P) }
  | none =>
    match s.freelist with
    | [] => none
    | _ :: fl =>
      some { s with freelist := fl, pgdir := set_pte s.pgdir va (pa ||| perm ||| PTE_P) }

/-- The body run for the region that contains the faulting address:
allocate a frame, zero it and map it at the page of the address. -/
def lazy_alloc (s : kstate) (faulting_address : Nat) : kstate :=
  let r := kalloc s
  let mem := r.1
  if mem = 0 then { r.2 with killed := 1 }
  else
    let s2 := memset_page r.2 mem
    match mappages s2 (PGROUNDDOWN faulting_address) (V2P mem) (PTE_W ||| PTE_U) with
    | none => { kfree s2 mem with killed := 1 }
    | some s3 => s3

/-- The test `faulting_address >= (uint)start && faulting_address < (uint)end`
of `trap` on the region `r`. -/
def inside (r : mmap_region) (faulting_address : Nat) : Prop :=
  faulting_address ≥ r.addr ∧ faulting_address < to_uint ((r.addr : Int) + r.length)

instance (r : mmap_region) (a : Nat) : Decidable (inside r a) := by
  unfold inside; infer_instance

/-- The loop `for (int i = 0; i < MAX_MMAPS; i++)` of `trap`: the state with
which `trap` returns from inside the loop, `none` when the loop ends without
a region that contains the address. -/
def trap_scan (s : kstate) (faulting_address : Nat) : List mmap_region → Option kstate
  | [] => none
  | r :: rest =>
    if r.is_used ≠ 0 ∧ inside r faulting_address then some (lazy_alloc s faulting_address)
    else trap_scan s faulting_address rest

/-- The code of `trap` after the loop: the copy-on-write attempt for a present,
not writable entry, and otherwise the segmentation fault. -/
def trap_tail (s : kstate) (faulting_address : Nat) : kstate :=
  match walkpgdir s.pgdir faulting_address with
  | some pte =>
    if pte &&& PTE_P ≠ 0 ∧ pte &&& PTE_W = 0 then
      let r := kalloc s
      let mem := r.1
      if mem = 0 then { r.2 with killed := 1 }
      else
        let a := PGROUNDDOWN faulting_address
        let s2 := memmove_page r.2 mem pte
        match mappages s2 a (V2P mem) (PTE_W ||| PTE_U) with
        | none => { kfree s2 mem with killed := 1 }
        | some s3 => s3
    else { s with killed := 1 }
  | none => { s with killed := 1 }

/-- The branch `if (tf->trapno == 14)` of `trap`; `faulting_address` is what
`rcr2()` returns. -/
def trap_page_fault (s : kstate) (faulting_address : Nat) : kstate :=
  match trap_scan s faulting_address s.mmaps with
  | some s1 => s1
  | none => trap_tail s faulting_address

/-! ## Sample states -/

/-- A live region. -/
def live (addr : Nat) (length : Int) (prot flags : Int) : mmap_region :=
  ⟨addr, length, prot, flags, 1⟩

/-- The page table without any entry. -/
def no_pages : Nat → Option Nat := fun _ => none

/-- The page table whose only entry is `pte`, for the virtual page number `n`. -/
def one_page (n pte : Nat) : Nat → Option Nat := fun k => if k = n then some pte else none

/-- No open file. -/
def no_files : List (Option file) := List.replicate 16 none

/-- Descriptor 3 is an open, readable file. -/
def file_at_3 : List (Option file) := [none, none, none, some ⟨true⟩] ++ List.replicate 12 none

/-- A state with the region table `m`, the page table `pt`, the free frames
`fl` (kernel virtual addresses) and the open files `fs`. -/
def mk_state (m : List mmap_region) (pt : Nat → Option Nat) (fl : List Nat)
    (fs : List (Option file)) : kstate :=
  { mmaps := m, pgdir := pt, killed := 0, ofile := fs, freelist := fl, mem := fun _ => 0,
    panicked := false }

/-- A table of 32 entries: `m` followed by zero-initialised entries. -/
def table (m : List mmap_region) : List mmap_region := m ++ List.replicate (32 - m.length) blank

/-- A table of 32 entries, all live: the three pages at `0x4000`, then 31
single pages from `0x10000` on. -/
def full_table : List mmap_region :=
  live 0x4000 0x3000 3 5 :: (List.range 31).map (fun k => live (0x10000 + k * 0x1000) 0x1000 3 5)

/-- The descriptor `fd` references an open, readable file: the test of `argfd`
(`fd < 0 || fd >= NOFILE || ofile[fd] == 0` fails) and the file is readable. -/
def fd_readable (s : kstate) (fd : Int) : Bool :=
  decide (0 ≤ fd) &&
    match s.ofile[fd.toNat]? with
    | some (some f) => f.readable
    | _ => false

/-! ## The invariant of the region table -/

/-- The spans `[addr, addr+length)` of two regions have no address in common:
one ends where the other starts or before, or one of them is empty. -/
def disjoint_spans (a b : mmap_region) : Prop :=
  (a.addr : Int) + a.length ≤ b.addr ∨ (b.addr : Int) + b.length ≤ a.addr ∨
    a.length ≤ 0 ∨ b.length ≤ 0

instance (a b : mmap_region) : Decidable (disjoint_spans a b) := by
  unfold disjoint_spans; infer_instance

/-- Two entries of the region table do not overlap when both are live. -/
def live_disjoint (a b : mmap_region) : Prop :=
  a.is_used ≠ 0 → b.is_used ≠ 0 → disjoint_spans a b

instance (a b : mmap_region) : Decidable (live_disjoint a b) := by
  unfold live_disjoint; infer_instance

/-- The live regions of the table are pairwise disjoint. -/
def regions_disjoint (l : List mmap_region) : Prop := l.Pairwise live_disjoint

instance (l : List mmap_region) : Decidable (regions_disjoint l) := by
  unfold regions_disjoint; infer_instance

/-- The length of the region is below `2^31` (it is a C `int`) and
`start + length` does not wrap around `2^32`: it lies in `[0, 2^32)`. -/
def no_wrap (q : mmap_region) : Prop :=
  q.length < 2147483648 ∧ 0 ≤ (q.addr : Int) + q.length ∧
    (q.addr : Int) + q.length < 4294967296

instance (q : mmap_region) : Decidable (no_wrap q) := by
  unfold no_wrap; infer_instance

/-- No live region of the table wraps around `2^32`. -/
def regions_no_wrap (l : List mmap_region) : Prop :=
  ∀ q ∈ l, q.is_used ≠ 0 → no_wrap q

instance (l : List mmap_region) : Decidable (regions_no_wrap l) := by
  unfold regions_no_wrap; infer_instance

/-- The region `r2` is what is left of the non-empty region `r` after a part
was cut off: it is live, lies inside the span of `r` and is not empty. -/
def narrowed (r r2 : mmap_region) : Prop :=
  r2.is_used ≠ 0 ∧ 0 < r.length ∧ r.addr ≤ r2.addr ∧ 0 < r2.length ∧
    (r2.addr : Int) + r2.length ≤ r.addr + r.length

/-! ## `sys_munmap`: the cases of the region adjustment -/

/-- The page-release loop does not touch the region table. -/
theorem unmap_pages_mmaps (fuel : Nat) (s s1 : kstate) (a e : Nat)
    (h : unmap_pages fuel s a e = some s1) : s1.mmaps = s.mmaps := by
  induction fuel generalizing s a with
  | zero => simp [unmap_pages] at h
  | succ n ih =>
    unfold unmap_pages at h
    split at h
    · have h2 := ih _ _ h
      rw [h2]
      split
      · split
        · split <;> rfl
        · rfl
      · rfl
    · cases h; rfl

/-- The page-release loop exits when the range ends at or below the last page
boundary `0xFFFFF000` and the fuel covers its pages. -/
theorem unmap_pages_returns (fuel : Nat) (s : kstate) (a e : Nat)
    (he : e ≤ 4294963200) (hf : (e - a + 4095) / 4096 < fuel) :
    ∃ s1, unmap_pages fuel s a e = some s1 := by
  induction fuel generalizing s a with
  | zero => omega
  | succ n ih =>
    unfold unmap_pages
    split
    · rename_i hlt
      have hmod : (a + PGSIZE) % 4294967296 = a + 4096 := by
        simp only [PGSIZE]; omega
      rw [hmod]
      exact ih _ _ (by omega)
    · exact ⟨s, rfl⟩

/-- The loop of `sys_munmap` runs its body on the first live entry that the
request intersects. -/
theorem munmap_scan_first (s : kstate) (addr : Nat) (len : Int) (l : List mmap_region)
    (n i : Nat) (r : mmap_region) (hi : l[i]? = some r)
    (hr : r.is_used ≠ 0 ∧ intersects r addr len)
    (hfirst : ∀ k q, k < i → l[k]? = some q → q.is_used ≠ 0 → ¬ intersects q addr len) :
    munmap_scan s addr len l n = munmap_region s (n + i) addr len := by
  induction l generalizing n i with
  | nil => simp at hi
  | cons q rest ih =>
    unfold munmap_scan
    cases i with
    | zero =>
      simp at hi
      subst hi
      rw [if_pos hr]; rfl
    | succ i2 =>
      have hq : ¬ (q.is_used ≠ 0 ∧ intersects q addr len) := fun h =>
        hfirst 0 q (by omega) (by simp) h.1 h.2
      rw [if_neg hq]
      have := ih (n + 1) i2 (by simpa using hi)
        (fun k q2 hk hq2 => hfirst (k + 1) q2 (by omega) (by simpa using hq2))
      rw [this]; congr 1; omega

/-- A live region `q` with a proper span that is disjoint from the region `r`
is not intersected by a request that lies strictly inside `r`. -/
theorem not_intersects_of_disjoint (q r : mmap_region) (u : Nat) (len : Int)
    (hq : 0 ≤ q.length) (hqe : q.addr + q.length ≤ 4294967296)
    (hdis : q.addr + q.length ≤ r.addr ∨ r.addr + r.length ≤ q.addr)
    (hre : r.addr + r.length < 4294967296) (hlen : 0 < len)
    (hsu : r.addr < u) (hve : u + len < r.addr + r.length) : ¬ intersects q u len := by
  unfold intersects to_uint
  omega

/-- An assignment to fields of an existing entry. -/
theorem modify_slot_eq (l : List mmap_region) (i : Nat) (f : mmap_region → mmap_region)
    (q : mmap_region) (h : l[i]? = some q) : modify_slot l i f = l.set i (f q) := by
  unfold modify_slot
  rw [h]

/-- A valid call of `sys_munmap` runs the body of its loop on the first live
entry that the request intersects. -/
theorem sys_munmap_first (s : kstate) (i : Nat) (r : mmap_region) (u : Nat) (len : Int)
    (hi : s.mmaps[i]? = some r) (hlive : r.is_used ≠ 0)
    (hu : u % PGSIZE = 0) (hlen : 0 < len) (hr : intersects r u len)
    (hfirst : ∀ k q, k < i → s.mmaps[k]? = some q → q.is_used ≠ 0 → ¬ intersects q u len) :
    sys_munmap s u len = munmap_region s i u len := by
  unfold sys_munmap
  rw [if_neg (by omega)]
  rw [munmap_scan_first s u len s.mmaps 0 i r hi ⟨hlive, hr⟩ hfirst, Nat.zero_add]

/-- A call with a misaligned `addr` or a `length <= 0` returns -1 and leaves the
state as it was. -/
theorem munmap_invalid_unchanged (s : kstate) (addr : Nat) (len : Int)
    (h : addr % PGSIZE ≠ 0 ∨ len ≤ 0) : sys_munmap s addr len = some (-1, s) := by
  unfold sys_munmap
  rw [if_pos h]

/-- The loop of `sys_munmap` returns -1 with the state as it was when the
request intersects no live entry. -/
theorem munmap_scan_none (s : kstate) (addr : Nat) (len : Int) (l : List mmap_region)
    (n : Nat) (h : ∀ q ∈ l, q.is_used ≠ 0 → ¬ intersects q addr len) :
    munmap_scan s addr len l n = some (-1, s) := by
  induction l generalizing n with
  | nil => rfl
  | cons q rest ih =>
    unfold munmap_scan
    rw [if_neg (fun hq => h q (List.mem_cons_self q rest) hq.1 hq.2)]
    exact ih (n + 1) (fun q2 hq2 => h q2 (List.mem_cons_of_mem q hq2))

/-- A call whose request intersects no live region returns -1 and leaves the
state as it was. -/
theorem munmap_no_region_unchanged (s : kstate) (addr : Nat) (len : Int)
    (h : ∀ q ∈ s.mmaps, q.is_used ≠ 0 → ¬ intersects q addr len) :
    sys_munmap s addr len = some (-1, s) := by
  unfold sys_munmap
  split
  · rfl
  · exact munmap_scan_none s addr len s.mmaps 0 h

/-- A request that covers exactly the live region `mmaps[i] = [s, e)` (the
first live entry it intersects) returns 0 and leaves the whole region table as
it was: no branch of `sys_munmap` removes the region. -/
theorem munmap_whole_region_unchanged (s : kstate) (i : Nat) (r : mmap_region)
    (hi : s.mmaps[i]? = some r) (hlive : r.is_used ≠ 0)
    (hu : r.addr % PGSIZE = 0) (hlen : 0 < r.length)
    (hend : r.addr + r.length ≤ 4294963200)
    (hfirst : ∀ k q, k < i → s.mmaps[k]? = some q → q.is_used ≠ 0 →
      ¬ intersects q r.addr r.length) :
    ∃ s1, sys_munmap s r.addr r.length = some (0, s1) ∧ s1.mmaps = s.mmaps := by
  have hend_u : to_uint ((r.addr : Int) + r.length) = (r.addr + r.length).toNat := by
    unfold to_uint; omega
  have hint_r : intersects r r.addr r.length := by
    unfold intersects; rw [hend_u]; omega
  obtain ⟨sp, hsp⟩ := unmap_pages_returns UNMAP_FUEL s (max r.addr r.addr)
    (min (to_uint ((r.addr : Int) + r.length)) (to_uint ((r.addr : Int) + r.length)))
    (by rw [hend_u]; omega) (by rw [hend_u]; simp only [UNMAP_FUEL]; omega)
  have hspm : sp.mmaps = s.mmaps := unmap_pages_mmaps _ _ _ _ _ hsp
  refine ⟨sp, ?_, hspm⟩
  rw [sys_munmap_first s i r r.addr r.length hi hlive hu hlen hint_r hfirst]
  unfold munmap_region
  rw [max_self, min_self] at hsp
  simp only [hi, hsp, max_self, min_self, gt_iff_lt, lt_self_iff_false, false_and, if_false]

/-- A request `[u, u+len)` that clips the tail of the live region
`mmaps[i] = [s, e)` (`s < u < e <= u+len`) returns 0 and leaves entry `i` as
`[u, e)`, the part that was unmapped. -/
theorem munmap_tail_clip (s : kstate) (i : Nat) (r : mmap_region) (u : Nat) (len : Int)
    (hi : s.mmaps[i]? = some r) (hlive : r.is_used ≠ 0)
    (hint : r.length < 2147483648) (hend : r.addr + r.length ≤ 4294963200)
    (hu : u % PGSIZE = 0) (hlen : 0 < len)
    (hsu : r.addr < u) (hue : u < r.addr + r.length) (hev : r.addr + r.length ≤ u + len)
    (hv : u + len < 4294967296)
    (hfirst : ∀ k q, k < i → s.mmaps[k]? = some q → q.is_used ≠ 0 → ¬ intersects q u len) :
    ∃ s1, sys_munmap s u len = some (0, s1) ∧
      s1.mmaps = s.mmaps.set i ⟨u, r.addr + r.length - u, r.prot, r.flags, r.is_used⟩ := by
  have hend_u : to_uint ((r.addr : Int) + r.length) = (r.addr + r.length).toNat := by
    unfold to_uint; omega
  have hv_u : to_uint ((u : Int) + len) = (u + len).toNat := by
    unfold to_uint; omega
  have hint_r : intersects r u len := by
    unfold intersects; rw [hend_u, hv_u]; omega
  obtain ⟨sp, hsp⟩ := unmap_pages_returns UNMAP_FUEL s (max r.addr u)
    (min (to_uint ((r.addr : Int) + r.length)) (to_uint ((u : Int) + len)))
    (by rw [hend_u, hv_u]; omega) (by rw [hend_u, hv_u]; simp only [UNMAP_FUEL]; omega)
  have hspm : sp.mmaps = s.mmaps := unmap_pages_mmaps _ _ _ _ _ hsp
  have hc1 : ¬ (min (to_uint ((r.addr : Int) + r.length)) (to_uint ((u : Int) + len))
        < to_uint ((r.addr : Int) + r.length)) := by
    rw [hend_u, hv_u]; omega
  have hc2 : max r.addr u > r.addr := by omega
  have hmax : max r.addr u = u := by omega
  have hilt : i < s.mmaps.length := by
    rcases List.getElem?_eq_some_iff.mp hi with ⟨h, _⟩; exact h
  have e1 : to_int (r.length - ((u : Int) - r.addr)) = r.addr + r.length - u := by
    unfold to_int; omega
  refine ⟨{ sp with
            mmaps := s.mmaps.set i ⟨u, r.addr + r.length - u, r.prot, r.flags, r.is_used⟩ },
    ?_, rfl⟩
  rw [sys_munmap_first s i r u len hi hlive hu hlen hint_r hfirst]
  unfold munmap_region
  simp only [hi, hsp, hc1, hc2, and_false, if_true, if_false, hspm]
  rw [modify_slot_eq _ i _ r hi]
  rw [modify_slot_eq _ i _ _ (List.getElem?_set_self hilt)]
  simp only [hmax, e1, List.set_set]

/-- A request `[u, u+len)` that clips the head of the live region
`mmaps[i] = [s, e)` (`u <= s < u+len < e`) returns 0 and leaves entry `i` as
`[s, u+len)`, the part that was unmapped. -/
theorem munmap_head_clip (s : kstate) (i : Nat) (r : mmap_region) (u : Nat) (len : Int)
    (hi : s.mmaps[i]? = some r) (hlive : r.is_used ≠ 0)
    (hint : r.length < 2147483648) (hend : r.addr + r.length < 4294967296)
    (hu : u % PGSIZE = 0) (hlen : 0 < len)
    (hus : u ≤ r.addr) (hsv : r.addr < u + len) (hve : u + len < r.addr + r.length)
    (hv : u + len ≤ 4294963200)
    (hfirst : ∀ k q, k < i → s.mmaps[k]? = some q → q.is_used ≠ 0 → ¬ intersects q u len) :
    ∃ s1, sys_munmap s u len = some (0, s1) ∧
      s1.mmaps = s.mmaps.set i ⟨r.addr, u + len - r.addr, r.prot, r.flags, r.is_used⟩ := by
  have hend_u : to_uint ((r.addr : Int) + r.length) = (r.addr + r.length).toNat := by
    unfold to_uint; omega
  have hv_u : to_uint ((u : Int) + len) = (u + len).toNat := by
    unfold to_uint; omega
  have hint_r : intersects r u len := by
    unfold intersects; rw [hend_u, hv_u]; omega
  obtain ⟨sp, hsp⟩ := unmap_pages_returns UNMAP_FUEL s (max r.addr u)
    (min (to_uint ((r.addr : Int) + r.length)) (to_uint ((u : Int) + len)))
    (by rw [hend_u, hv_u]; omega) (by rw [hend_u, hv_u]; simp only [UNMAP_FUEL]; omega)
  have hspm : sp.mmaps = s.mmaps := unmap_pages_mmaps _ _ _ _ _ hsp
  have hc2 : ¬ max r.addr u > r.addr := by omega
  have hc3 : min (to_uint ((r.addr : Int) + r.length)) (to_uint ((u : Int) + len))
        < to_uint ((r.addr : Int) + r.length) := by
    rw [hend_u, hv_u]; omega
  have e1 : to_int (r.length - (((r.addr + r.length).toNat : Int) - ((u + len).toNat : Int)))
      = u + len - r.addr := by
    unfold to_int; omega
  refine ⟨{ sp with
            mmaps := s.mmaps.set i ⟨r.addr, u + len - r.addr, r.prot, r.flags, r.is_used⟩ },
    ?_, rfl⟩
  rw [sys_munmap_first s i r u len hi hlive hu hlen hint_r hfirst]
  unfold munmap_region
  simp only [hi, hsp, hc2, hc3, false_and, if_true, if_false, hspm]
  rw [modify_slot_eq _ i _ r hi]
  have hmin2 : min (r.addr + r.length).toNat (to_uint ((u : Int) + len))
      = (u + len).toNat := by rw [hv_u]; omega
  simp only [hend_u, hmin2, e1]

/-- The page-release loop never exits when it starts at a page boundary and
its range ends above the last page boundary `0xFFFFF000`: the `uint` loop
variable wraps to a page boundary below the end, whatever the fuel. -/
theorem unmap_pages_wraps (fuel : Nat) (s : kstate) (a e : Nat)
    (ha : a % PGSIZE = 0) (ha2 : a < 4294967296) (he : 4294963200 < e) :
    unmap_pages fuel s a e = none := by
  induction fuel generalizing s a with
  | zero => rfl
  | succ n ih =>
    simp only [PGSIZE] at ha
    unfold unmap_pages
    rw [if_pos (by omega)]
    exact ih _ _ (by simp only [PGSIZE]; omega) (by omega)

/-- A split whose request ends above the last page boundary `0xFFFFF000` never
returns: with the hypotheses of the split, except that `u+len` lies above
`0xFFFFF000`, `sys_munmap(u, len)` stays in its page-release loop. -/
theorem munmap_split_never_returns (s : kstate) (i : Nat) (r : mmap_region) (u : Nat)
    (len : Int) (hi : s.mmaps[i]? = some r) (hlive : r.is_used ≠ 0)
    (hend : r.addr + r.length < 4294967296)
    (hu : u % PGSIZE = 0) (hlen : 0 < len)
    (hsu : r.addr < u) (hve : u + len < r.addr + r.length) (hv : 4294963200 < u + len)
    (hfirst : ∀ k q, k < i → s.mmaps[k]? = some q → q.is_used ≠ 0 → ¬ intersects q u len) :
    sys_munmap s u len = none := by
  have hend_u : to_uint ((r.addr : Int) + r.length) = (r.addr + r.length).toNat := by
    unfold to_uint; omega
  have hv_u : to_uint ((u : Int) + len) = (u + len).toNat := by
    unfold to_uint; omega
  have hint_r : intersects r u len := by
    unfold intersects; rw [hend_u, hv_u]; omega
  have hmax : max r.addr u = u := by omega
  have hloop : unmap_pages UNMAP_FUEL s (max r.addr u)
      (min (to_uint ((r.addr : Int) + r.length)) (to_uint ((u : Int) + len))) = none := by
    rw [hmax]
    exact unmap_pages_wraps _ _ _ _ hu (by omega) (by rw [hend_u, hv_u]; omega)
  rw [sys_munmap_first s i r u len hi hlive hu hlen hint_r hfirst]
  unfold munmap_region
  simp only [hi, hloop]

/-- The table after the call of scenario S3, entry by entry. -/
theorem munmap_split_middle_sample :
    (sys_munmap (mk_state (table [live 0x10000 0x1000 3 5, live 0x4000 0x3000 3 5])
        no_pages [] no_files) 0x5000 0x1000).map (fun r => (r.1, r.2.mmaps))
      = some (0, table [live 0x10000 0x1000 3 5, live 0x4000 0x1000 3 5,
          ⟨0x6000, 0x1000, 0, 0, 1⟩]) := by
  decide

/-! ## `sys_munmap`: sample calls -/

/-- C1, at the input of scenario S1: after `munmap(0x4000, 0x2000)` on the
region `[0x4000, 0x6000)` the call returns 0 and the region table is what it
was, the region still live: no branch of the adjustment handles the request
that covers the whole region. -/
theorem munmap_whole_region_stays_live :
    (sys_munmap (mk_state (table [live 0x4000 0x2000 3 5]) no_pages [] no_files)
        0x4000 0x2000).map (fun r => (r.1, r.2.mmaps))
      = some (0, table [live 0x4000 0x2000 3 5]) := by
  decide

/-- C2, at two inputs on the region `[0x4000, 0x7000)`: a request that clips
the tail, `munmap(0x6000, 0x1000)`, leaves the entry as `[0x6000, 0x7000)`,
and a request that clips the head, `munmap(0x4000, 0x1000)`, leaves it as
`[0x4000, 0x5000)`: in both cases the entry becomes the part that was
unmapped, not the rest. -/
theorem munmap_trim_keeps_unmapped_part :
    (sys_munmap (mk_state (table [live 0x4000 0x3000 3 5]) no_pages [] no_files)
        0x6000 0x1000).map (fun r => (r.1, r.2.mmaps))
      = some (0, table [live 0x6000 0x1000 3 5]) ∧
    (sys_munmap (mk_state (table [live 0x4000 0x3000 3 5]) no_pages [] no_files)
        0x4000 0x1000).map (fun r => (r.1, r.2.mmaps))
      = some (0, table [live 0x4000 0x1000 3 5]) := by
  decide

/-- C4, at the input of scenario S4: with all 32 entries live and the middle
page of `[0x4000, 0x7000)` mapped to the frame `0x400000`,
`munmap(0x5000, 0x1000)` returns -1 and leaves the region table as it was, but
the page-table entry of `0x5000` has been cleared and its frame freed. -/
theorem munmap_failed_split_clears_pte :
    (mk_state full_table (one_page 5 0x400007) [] no_files).pgdir 5 = some 0x400007 ∧
    (sys_munmap (mk_state full_table (one_page 5 0x400007) [] no_files)
        0x5000 0x1000).map (fun r => (r.1, r.2.mmaps, r.2.pgdir 5, r.2.freelist))
      = some (-1, full_table, some 0, [0x80400000]) := by
  decide

/-! ## `sys_mmap`: what the loop does, and sample calls -/

/-- The inner loop of the branch without `MAP_FIXED` never leaves `found`
different from 0 when it starts at 0. -/
theorem nonfixed_scan_zero (i start_addr new_end : Nat) (l : List mmap_region) (j : Nat) :
    nonfixed_scan i start_addr new_end 0 l j = 0 := by
  induction l generalizing j with
  | nil => rfl
  | cons q rest ih =>
    unfold nonfixed_scan
    split
    · rfl
    · exact ih (j + 1)

/-- Without `MAP_ANONYMOUS` and without `MAP_FIXED` the loop of `sys_mmap`
records nothing and ends with `MAP_FAILED`. -/
theorem mmap_scan_file_nonfixed (s : kstate) (addr : Nat) (length prot flags aligned : Int)
    (range start_addr0 : Nat) (is_used0 : Int)
    (hanon : to_uint flags &&& MAP_ANONYMOUS = 0) (hfixed : to_uint flags &&& MAP_FIXED = 0)
    (l : List mmap_region) (i : Nat) :
    mmap_scan s addr length prot flags aligned range start_addr0 is_used0 l i
      = (MAP_FAILED, s) := by
  induction l generalizing i with
  | nil => rfl
  | cons r rest ih =>
    unfold mmap_scan
    simp only [hanon, hfixed, nonfixed_scan_zero, ne_eq, not_true_eq_false, if_false, ih,
      ite_self]

/-- The four argument checks of `sys_mmap`: a `length <= 0`, a `prot` with a
bit outside `PROT_READ|PROT_WRITE`, `MAP_ANONYMOUS` with `fd != -1`, or
`MAP_FIXED` with an `addr` that is not page-aligned gives `MAP_FAILED` and
leaves the state as it was. -/
theorem mmap_rejects_bad_arguments (s : kstate) (addr : Nat)
    (length prot flags fd offset : Int) (range start_addr0 : Nat) (is_used0 : Int)
    (h : length ≤ 0 ∨ to_uint prot &&& (4294967295 - (PROT_READ ||| PROT_WRITE)) ≠ 0 ∨
      (to_uint flags &&& MAP_ANONYMOUS ≠ 0 ∧ fd ≠ -1) ∨
      (to_uint flags &&& MAP_FIXED ≠ 0 ∧ addr % PGSIZE ≠ 0)) :
    sys_mmap s addr length prot flags fd offset range start_addr0 is_used0
      = (MAP_FAILED, s) := by
  unfold sys_mmap
  split
  · rfl
  · rename_i h1
    rcases h with h | h | h | h
    · exact absurd (Or.inl h) h1
    · exact absurd (Or.inr (Or.inl h)) h1
    · exact absurd (Or.inr (Or.inr h)) h1
    · exact if_pos h

/-- C5, at a request that contains an existing region: with `[0x5000, 0x6000)`
live and descriptor 3 open, `mmap(0x4000, 0x3000, PROT_READ,
MAP_PRIVATE|MAP_FIXED, 3, 0)` returns `0x4000` and records `[0x4000, 0x7000)`
in the second entry. -/
theorem mmap_fixed_containing_accepted :
    ∀ (range start_addr0 : Nat) (is_used0 : Int),
    fd_readable (mk_state (table [live 0x5000 0x1000 1 1]) no_pages [] file_at_3) 3 = true ∧
    (sys_mmap (mk_state (table [live 0x5000 0x1000 1 1]) no_pages [] file_at_3)
        0x4000 0x3000 1 9 3 0 range start_addr0 is_used0).1 = 0x4000 ∧
    (sys_mmap (mk_state (table [live 0x5000 0x1000 1 1]) no_pages [] file_at_3)
        0x4000 0x3000 1 9 3 0 range start_addr0 is_used0).2.mmaps
      = table [live 0x5000 0x1000 1 1, live 0x4000 0x3000 1 9] := by
  intro range start_addr0 is_used0
  exact ⟨by decide, rfl, rfl⟩

/-- The anonymous case of C5, at the input of scenario S2: with
`[0x5000, 0x6000)` live, `mmap(0x5000, 0x1000, PROT_READ,
MAP_ANONYMOUS|MAP_PRIVATE|MAP_FIXED, -1, 0)` returns `0x5000` and stores a
second region with the same span. -/
theorem mmap_fixed_anonymous_overlap_accepted (range start_addr0 : Nat) (is_used0 : Int) :
    (sys_mmap (mk_state (table [live 0x5000 0x1000 1 1]) no_pages [] no_files)
        0x5000 0x1000 1 13 (-1) 0 range start_addr0 is_used0).1 = 0x5000 ∧
    (sys_mmap (mk_state (table [live 0x5000 0x1000 1 1]) no_pages [] no_files)
        0x5000 0x1000 1 13 (-1) 0 range start_addr0 is_used0).2.mmaps
      = table [live 0x5000 0x1000 1 1, ⟨0x5000, 0x1000, 1, 13, is_used0⟩] := by
  exact ⟨rfl, rfl⟩

/-- C6, at a descriptor that is not open: with no open file,
`mmap(0x4000, 0x1000, PROT_READ, MAP_PRIVATE|MAP_FIXED, 7, 0)` returns `0x4000`
and records the region. -/
theorem mmap_closed_fd_accepted :
    ∀ (range start_addr0 : Nat) (is_used0 : Int),
    fd_readable (mk_state (table []) no_pages [] no_files) 7 = false ∧
    (sys_mmap (mk_state (table []) no_pages [] no_files)
        0x4000 0x1000 1 9 7 0 range start_addr0 is_used0).1 = 0x4000 ∧
    (sys_mmap (mk_state (table []) no_pages [] no_files)
        0x4000 0x1000 1 9 7 0 range start_addr0 is_used0).2.mmaps
      = table [live 0x4000 0x1000 1 9] := by
  intro range start_addr0 is_used0
  exact ⟨by decide, rfl, rfl⟩

/-- C7, at an anonymous request of 100 bytes: `mmap(0x4000, 100,
PROT_READ|PROT_WRITE, MAP_ANONYMOUS|MAP_PRIVATE|MAP_FIXED, -1, 0)` on the empty
table returns `0x4000` and stores a region of length 100, not 4096, whose
`is_used` field is the value that was never assigned. -/
theorem mmap_anonymous_length_not_rounded :
    ∀ (range start_addr0 : Nat) (is_used0 : Int),
    (sys_mmap (mk_state (table []) no_pages [] no_files)
        0x4000 100 3 13 (-1) 0 range start_addr0 is_used0).1 = 0x4000 ∧
    (sys_mmap (mk_state (table []) no_pages [] no_files)
        0x4000 100 3 13 (-1) 0 range start_addr0 is_used0).2.mmaps
      = table [⟨0x4000, 100, 3, 13, is_used0⟩] := by
  intro range start_addr0 is_used0
  exact ⟨rfl, rfl⟩

/-- C8, at the input of scenario S5: with the empty table and descriptor 3 an
open, readable file, `mmap(0, 8192, PROT_READ, MAP_PRIVATE, 3, 0)` returns
`MAP_FAILED` and records nothing. -/
theorem mmap_file_nonfixed_fails :
    ∀ (range start_addr0 : Nat) (is_used0 : Int),
    fd_readable (mk_state (table []) no_pages [] file_at_3) 3 = true ∧
    (sys_mmap (mk_state (table []) no_pages [] file_at_3)
        0 8192 1 1 3 0 range start_addr0 is_used0).1 = MAP_FAILED ∧
    (sys_mmap (mk_state (table []) no_pages [] file_at_3)
        0 8192 1 1 3 0 range start_addr0 is_used0).2.mmaps = table [] := by
  intro range start_addr0 is_used0
  have h : sys_mmap (mk_state (table []) no_pages [] file_at_3)
      0 8192 1 1 3 0 range start_addr0 is_used0
        = (MAP_FAILED, mk_state (table []) no_pages [] file_at_3) := by
    unfold sys_mmap
    rw [if_neg (by decide), if_neg (by decide)]
    exact mmap_scan_file_nonfixed _ _ _ _ _ _ _ _ _ (by decide) (by decide) _ _
  rw [h]
  exact ⟨by decide, rfl, rfl⟩

/-! ## The page-fault branch of `trap`: theorems -/

/-- The loop of `trap` ends without a match when no live region contains the
faulting address. -/
theorem trap_scan_none (s : kstate) (va : Nat) (l : List mmap_region)
    (hout : ∀ r ∈ l, r.is_used ≠ 0 → ¬ inside r va) : trap_scan s va l = none := by
  induction l with
  | nil => rfl
  | cons r rest ih =>
    unfold trap_scan
    have hr : ¬ (r.is_used ≠ 0 ∧ inside r va) := fun h =>
      hout r (List.mem_cons_self r rest) h.1 h.2
    rw [if_neg hr]
    exact ih (fun q hq => hout q (List.mem_cons_of_mem r hq))

/-- The loop of `trap` runs the lazy allocation when some live region contains
the faulting address. -/
theorem trap_scan_some (s : kstate) (va : Nat) (l : List mmap_region)
    (hin : ∃ r ∈ l, r.is_used ≠ 0 ∧ inside r va) :
    trap_scan s va l = some (lazy_alloc s va) := by
  induction l with
  | nil => obtain ⟨r, hr, _⟩ := hin; cases hr
  | cons q rest ih =>
    unfold trap_scan
    by_cases hq : q.is_used ≠ 0 ∧ inside q va
    · rw [if_pos hq]
    · rw [if_neg hq]
      obtain ⟨r, hr, hlive, hins⟩ := hin
      rcases List.mem_cons.mp hr with rfl | hr
      · exact absurd ⟨hlive, hins⟩ hq
      · exact ih ⟨r, hr, hlive, hins⟩

/-- An entry built with the permissions `PTE_W|PTE_U` has the user bit and the
write bit, whatever the frame. -/
theorem pte_bits (pa : Nat) :
    (pa ||| (PTE_W ||| PTE_U) ||| PTE_P) &&& PTE_U ≠ 0 ∧
    (pa ||| (PTE_W ||| PTE_U) ||| PTE_P) &&& PTE_W ≠ 0 := by
  have hu1 : (PTE_W ||| PTE_U).testBit 2 = true := by decide
  have hu2 : PTE_U.testBit 2 = true := by decide
  have hw1 : (PTE_W ||| PTE_U).testBit 1 = true := by decide
  have hw2 : PTE_W.testBit 1 = true := by decide
  constructor
  · intro h
    have h2 : ((pa ||| (PTE_W ||| PTE_U) ||| PTE_P) &&& PTE_U).testBit 2 = true := by
      rw [Nat.testBit_and, Nat.testBit_or, Nat.testBit_or, hu1, hu2]
      simp
    rw [h] at h2
    simp at h2
  · intro h
    have h2 : ((pa ||| (PTE_W ||| PTE_U) ||| PTE_P) &&& PTE_W).testBit 1 = true := by
      rw [Nat.testBit_and, Nat.testBit_or, Nat.testBit_or, hw1, hw2]
      simp
    rw [h] at h2
    simp at h2

/-- C9, at a fault outside every region on a page that is present and not
writable: the fault at `0x9010` lies in no live region, the entry of its page
is `0x200005` (present, user, not writable) and a frame is free.  `trap` takes
the copy-on-write branch and calls `mappages` on the page that is already
mapped: `killed` is not set, no entry changes, and the kernel has stopped
instead of killing the process. -/
theorem fault_outside_regions_not_killed :
    (∀ r ∈ (mk_state (table [live 0x4000 0x1000 3 5]) (one_page 9 0x200005)
        [0x80400000] no_files).mmaps, r.is_used ≠ 0 → ¬ inside r 0x9010) ∧
    walkpgdir (mk_state (table [live 0x4000 0x1000 3 5]) (one_page 9 0x200005)
        [0x80400000] no_files).pgdir 0x9010 = some 0x200005 ∧
    0x200005 &&& PTE_P ≠ 0 ∧ 0x200005 &&& PTE_W = 0 ∧
    (trap_page_fault (mk_state (table [live 0x4000 0x1000 3 5]) (one_page 9 0x200005)
        [0x80400000] no_files) 0x9010).killed = 0 ∧
    (trap_page_fault (mk_state (table [live 0x4000 0x1000 3 5]) (one_page 9 0x200005)
        [0x80400000] no_files) 0x9010).panicked = true ∧
    walkpgdir (trap_page_fault (mk_state (table [live 0x4000 0x1000 3 5])
        (one_page 9 0x200005) [0x80400000] no_files) 0x9010).pgdir 0x9010
      = some 0x200005 := by
  decide

/-- The copy-on-write branch in general: a fault outside every live region on a
page whose entry is present and not writable, with a frame that `kalloc` can
return, leaves `killed`, the page table and the region table as they were and
stops the kernel in `mappages`. -/
theorem fault_outside_regions_cow (s : kstate) (va pte f : Nat) (fl : List Nat)
    (hout : ∀ r ∈ s.mmaps, r.is_used ≠ 0 → ¬ inside r va)
    (hw : walkpgdir s.pgdir va = some pte) (hp : pte &&& PTE_P ≠ 0) (hnw : pte &&& PTE_W = 0)
    (hfree : s.freelist = f :: fl) (hf : f ≠ 0) :
    (trap_page_fault s va).killed = s.killed ∧ (trap_page_fault s va).panicked = true ∧
      (trap_page_fault s va).pgdir = s.pgdir ∧ (trap_page_fault s va).mmaps = s.mmaps := by
  have hpg : PGROUNDDOWN va / PGSIZE = va / PGSIZE := by
    unfold PGROUNDDOWN
    exact Nat.mul_div_cancel _ (by decide)
  unfold walkpgdir at hw
  unfold trap_page_fault
  rw [trap_scan_none s va s.mmaps hout]
  simp only [trap_tail, walkpgdir, hw, ne_eq, hp, hnw, not_false_eq_true, and_self, if_true,
    kalloc, hfree, hf, if_false, mappages, memmove_page, hpg]

/-- A fault outside every live region when `kalloc` returns 0: whatever the
entry of the page, `killed` is set and the page table and the region table are
what they were. -/
theorem fault_outside_regions_no_frame (s : kstate) (va : Nat)
    (hout : ∀ r ∈ s.mmaps, r.is_used ≠ 0 → ¬ inside r va) (hk : (kalloc s).1 = 0) :
    (trap_page_fault s va).killed = 1 ∧ (trap_page_fault s va).pgdir = s.pgdir ∧
      (trap_page_fault s va).mmaps = s.mmaps := by
  have hk2 : (kalloc s).2.pgdir = s.pgdir ∧ (kalloc s).2.mmaps = s.mmaps := by
    unfold kalloc
    cases s.freelist <;> exact ⟨rfl, rfl⟩
  unfold trap_page_fault
  rw [trap_scan_none s va s.mmaps hout]
  show (trap_tail s va).killed = 1 ∧ (trap_tail s va).pgdir = s.pgdir ∧
    (trap_tail s va).mmaps = s.mmaps
  unfold trap_tail
  split
  · split
    · rw [if_pos hk]
      exact ⟨rfl, hk2.1, hk2.2⟩
    · exact ⟨rfl, rfl, rfl⟩
  · exact ⟨rfl, rfl, rfl⟩

/-- The fatal path: a page fault whose address lies in no live region, and for
whose page `walkpgdir` finds no entry, or an entry that is not present, or one
that is writable, sets `killed` and changes nothing else: no page-table
entry, no region, no frame. -/
theorem fault_outside_regions_kills (s : kstate) (va : Nat)
    (hout : ∀ r ∈ s.mmaps, r.is_used ≠ 0 → ¬ inside r va)
    (hpte : ∀ pte, walkpgdir s.pgdir va = some pte → pte &&& PTE_P = 0 ∨ pte &&& PTE_W ≠ 0) :
    trap_page_fault s va = { s with killed := 1 } := by
  unfold trap_page_fault
  rw [trap_scan_none s va s.mmaps hout]
  show trap_tail s va = _
  unfold trap_tail
  cases hw : walkpgdir s.pgdir va with
  | none => rfl
  | some pte =>
    have hc : ¬ (pte &&& PTE_P ≠ 0 ∧ pte &&& PTE_W = 0) := by
      rcases hpte pte hw with h | h
      · exact fun hh => hh.1 h
      · exact fun hh => h hh.2
    simp only [hc, if_false]

/-- The fatal path at the fault at `0x9010`, outside the region
`[0x4000, 0x5000)`, on a page whose entry is present and writable. -/
theorem fault_outside_regions_kills_witness :
    trap_page_fault (mk_state (table [live 0x4000 0x1000 3 5]) (one_page 9 0x200007)
        [0x80400000] no_files) 0x9010
      = { mk_state (table [live 0x4000 0x1000 3 5]) (one_page 9 0x200007)
            [0x80400000] no_files with killed := 1 } :=
  fault_outside_regions_kills _ 0x9010 (by decide) (by
    intro pte h
    have h2 : pte = 0x200007 := by
      have h3 : (some 0x200007 : Option Nat) = some pte := h
      exact (Option.some.inj h3).symm
    subst h2
    decide)

/-- C10, at a read-only region: the region `[0x4000, 0x5000)` has
`prot = PROT_READ`, which `sys_mmap` checked and recorded; the fault at
`0x4010` is resolved by lazy fill and the entry installed for `0x4000` is
`0x400007`, with the write bit. -/
theorem lazy_fill_read_only_region_writable :
    (mk_state (table [live 0x4000 0x1000 1 5]) no_pages
        [0x80400000, 0x80401000] no_files).mmaps[0]? = some (live 0x4000 0x1000 1 5) ∧
    to_uint (live 0x4000 0x1000 1 5).prot &&& PROT_WRITE = 0 ∧
    (trap_page_fault (mk_state (table [live 0x4000 0x1000 1 5]) no_pages
        [0x80400000, 0x80401000] no_files) 0x4010).pgdir (PGROUNDDOWN 0x4010 / PGSIZE)
      = some 0x400007 ∧
    0x400007 &&& PTE_W ≠ 0 := by
  decide

/-- The permissions of a lazy fill in general: when a page fault at `va` inside
a live region is resolved by lazy fill (the page has no present entry,
`kalloc` returns the frame `f` and `mappages` succeeds), the entry installed
for `PGROUNDDOWN(va)` is `V2P(f) | PTE_W | PTE_U | PTE_P`: the handler passes
`PTE_W|PTE_U` without reading the `prot` of the region. -/
theorem lazy_fill_pte_user_and_writable (s : kstate) (va : Nat) (r : mmap_region)
    (f : Nat) (fl : List Nat)
    (hr : r ∈ s.mmaps) (hlive : r.is_used ≠ 0) (hin : inside r va)
    (hnp : ∀ pte, walkpgdir s.pgdir va = some pte → pte &&& PTE_P = 0)
    (hfree : s.freelist = f :: fl) (hf : f ≠ 0)
    (hmap : walkpgdir s.pgdir va ≠ none ∨ fl ≠ []) :
    walkpgdir (trap_page_fault s va).pgdir (PGROUNDDOWN va)
      = some (V2P f ||| (PTE_W ||| PTE_U) ||| PTE_P) ∧
    (V2P f ||| (PTE_W ||| PTE_U) ||| PTE_P) &&& PTE_U ≠ 0 ∧
    (V2P f ||| (PTE_W ||| PTE_U) ||| PTE_P) &&& PTE_W ≠ 0 ∧
    (trap_page_fault s va).killed = s.killed := by
  have hpg : PGROUNDDOWN va / PGSIZE = va / PGSIZE := by
    unfold PGROUNDDOWN
    exact Nat.mul_div_cancel _ (by decide)
  refine ⟨?_, (pte_bits (V2P f)).1, (pte_bits (V2P f)).2, ?_⟩
  all_goals
    unfold trap_page_fault
    rw [trap_scan_some s va s.mmaps ⟨r, hr, hlive, hin⟩]
    simp only [lazy_alloc, kalloc, hfree, hf, if_false, mappages, memset_page, walkpgdir, hpg]
    unfold walkpgdir at hmap hnp
    cases hw : s.pgdir (va / PGSIZE) with
    | some pte => simp [set_pte, hpg, hnp pte hw]
    | none =>
      cases fl with
      | nil => simp [hw] at hmap
      | cons g gl => simp [set_pte, hpg]

/-- The permissions of a lazy fill at the read-only region `[0x4000, 0x5000)`
and the fault at `0x4010`. -/
theorem lazy_fill_pte_user_and_writable_witness :
    walkpgdir (trap_page_fault (mk_state (table [live 0x4000 0x1000 1 5]) no_pages
        [0x80400000, 0x80401000] no_files) 0x4010).pgdir (PGROUNDDOWN 0x4010)
      = some (V2P 0x80400000 ||| (PTE_W ||| PTE_U) ||| PTE_P) ∧
    (V2P 0x80400000 ||| (PTE_W ||| PTE_U) ||| PTE_P) &&& PTE_U ≠ 0 ∧
    (V2P 0x80400000 ||| (PTE_W ||| PTE_U) ||| PTE_P) &&& PTE_W ≠ 0 ∧
    (trap_page_fault (mk_state (table [live 0x4000 0x1000 1 5]) no_pages
        [0x80400000, 0x80401000] no_files) 0x4010).killed
      = (mk_state (table [live 0x4000 0x1000 1 5]) no_pages
        [0x80400000, 0x80401000] no_files).killed :=
  lazy_fill_pte_user_and_writable _ 0x4010 (live 0x4000 0x1000 1 5) 0x80400000 [0x80401000]
    (by decide) (by decide) (by decide) (by intro pte h; cases h) rfl (by decide)
    (Or.inr (by decide))


/-- The frame address of an entry built from a page-aligned 32-bit frame address
and the permissions `PTE_W|PTE_U|PTE_P` is that frame address. -/
theorem pte_addr_frame (pa : Nat) (h1 : pa % PGSIZE = 0) (h2 : pa < 4294967296) :
    PTE_ADDR (pa ||| (PTE_W ||| PTE_U) ||| PTE_P) = pa := by
  unfold PTE_ADDR
  apply Nat.eq_of_testBit_eq
  intro i
  have hm : (4294963200 : Nat) = (2 ^ 20 - 1) <<< 12 := by decide
  rw [Nat.testBit_and, Nat.testBit_or, Nat.testBit_or, hm, Nat.testBit_shiftLeft,
    Nat.testBit_two_pow_sub_one]
  by_cases hi : 12 ≤ i
  · by_cases hi2 : i < 32
    · have e1 : (PTE_W ||| PTE_U).testBit i = false := by
        apply Nat.testBit_lt_two_pow
        calc PTE_W ||| PTE_U = 6 := by decide
          _ < 2 ^ 12 := by decide
          _ ≤ 2 ^ i := Nat.pow_le_pow_right (by decide) hi
      have e2 : PTE_P.testBit i = false := by
        apply Nat.testBit_lt_two_pow
        calc PTE_P < 2 ^ 12 := by decide
          _ ≤ 2 ^ i := Nat.pow_le_pow_right (by decide) hi
      have e3 : i - 12 < 20 := by omega
      simp [e1, e2, hi, e3]
    · have e0 : pa.testBit i = false := by
        apply Nat.testBit_lt_two_pow
        calc pa < 2 ^ 32 := h2
          _ ≤ 2 ^ i := Nat.pow_le_pow_right (by decide) (by omega)
      have e3 : ¬ i - 12 < 20 := by omega
      simp [e0, hi, e3]
  · have e0 : pa.testBit i = false := by
      have hlt : i < 12 := by omega
      have hd : 2 ^ 12 ∣ pa := Nat.dvd_of_mod_eq_zero h1
      obtain ⟨c, hc⟩ := hd
      rw [hc, Nat.mul_comm, ← Nat.shiftLeft_eq, Nat.testBit_shiftLeft]
      simp; omega
    simp [e0, hi]

/-- The lazy allocation when `kalloc` returns the frame `f` and `mappages`
succeeds: the state afterwards, field by field. -/
theorem lazy_alloc_success (s : kstate) (va f : Nat) (fl : List Nat)
    (hnp : ∀ pte, walkpgdir s.pgdir va = some pte → pte &&& PTE_P = 0)
    (hfree : s.freelist = f :: fl) (hf : f ≠ 0)
    (hmap : walkpgdir s.pgdir va ≠ none ∨ fl ≠ []) :
    lazy_alloc s va =
      { mmaps := s.mmaps,
        pgdir := set_pte s.pgdir (PGROUNDDOWN va) (V2P f ||| (PTE_W ||| PTE_U) ||| PTE_P),
        killed := s.killed,
        ofile := s.ofile,
        freelist := if walkpgdir s.pgdir va = none then fl.tail else fl,
        mem := fun x => if f ≤ x ∧ x < f + PGSIZE then 0 else s.mem x,
        panicked := s.panicked } := by
  have hpg : PGROUNDDOWN va / PGSIZE = va / PGSIZE := by
    unfold PGROUNDDOWN
    exact Nat.mul_div_cancel _ (by decide)
  unfold walkpgdir at hmap hnp
  simp only [lazy_alloc, kalloc, hfree, hf, if_false, mappages, memset_page, walkpgdir, hpg]
  rcases Option.eq_none_or_eq_some (s.pgdir (va / PGSIZE)) with hw | ⟨pte, hw⟩
  · cases fl with
    | nil => simp [hw] at hmap
    | cons g gl => simp [hw]
  · simp [hw, hnp pte hw]

/-- The lazy allocation when `kalloc` returns 0: only `killed` and the free
list can differ afterwards. -/
theorem lazy_alloc_no_frame (s : kstate) (va : Nat) (h : (kalloc s).1 = 0) :
    (lazy_alloc s va).killed = 1 ∧ (lazy_alloc s va).pgdir = s.pgdir ∧
      (lazy_alloc s va).mmaps = s.mmaps := by
  have hk : (kalloc s).2.pgdir = s.pgdir ∧ (kalloc s).2.mmaps = s.mmaps := by
    unfold kalloc
    cases s.freelist <;> exact ⟨rfl, rfl⟩
  unfold lazy_alloc
  rw [if_pos h]
  exact ⟨rfl, hk.1, hk.2⟩

/-- C11: let `va` lie inside a live anonymous region and let its page have no
present entry.  If `kalloc` returns a frame `f` and `mappages` succeeds, then
after the page-fault branch of `trap` the page `PGROUNDDOWN(va)` is mapped to
`f` (which has left the free list), the 4096 bytes of `f` are 0, every other
page-table entry and the whole region table are what they were, and `killed`
has not been set.  If `kalloc` returns 0, `killed` is set and the page table
is what it was. -/
theorem lazy_fill_anonymous (s : kstate) (va : Nat) (r : mmap_region)
    (hr : r ∈ s.mmaps) (hlive : r.is_used ≠ 0)
    (_hanon : to_uint r.flags &&& MAP_ANONYMOUS ≠ 0) (hin : inside r va)
    (hnp : ∀ pte, walkpgdir s.pgdir va = some pte → pte &&& PTE_P = 0) :
    (∀ f fl, s.freelist = f :: fl → f ≠ 0 → (walkpgdir s.pgdir va ≠ none ∨ fl ≠ []) →
      walkpgdir (trap_page_fault s va).pgdir (PGROUNDDOWN va)
        = some (V2P f ||| (PTE_W ||| PTE_U) ||| PTE_P) ∧
      (f % PGSIZE = 0 → KERNBASE ≤ f → f < 4294967296 →
        P2V (PTE_ADDR (V2P f ||| (PTE_W ||| PTE_U) ||| PTE_P)) = f) ∧
      (trap_page_fault s va).freelist = (if walkpgdir s.pgdir va = none then fl.tail else fl) ∧
      (∀ k, k < PGSIZE → (trap_page_fault s va).mem (f + k) = 0) ∧
      (∀ n, n ≠ va / PGSIZE → (trap_page_fault s va).pgdir n = s.pgdir n) ∧
      (trap_page_fault s va).mmaps = s.mmaps ∧
      (trap_page_fault s va).killed = s.killed) ∧
    ((kalloc s).1 = 0 →
      (trap_page_fault s va).killed = 1 ∧ (trap_page_fault s va).pgdir = s.pgdir ∧
      (trap_page_fault s va).mmaps = s.mmaps) := by
  have hrun : trap_page_fault s va = lazy_alloc s va := by
    unfold trap_page_fault
    rw [trap_scan_some s va s.mmaps ⟨r, hr, hlive, hin⟩]
  have hpg : PGROUNDDOWN va / PGSIZE = va / PGSIZE := by
    unfold PGROUNDDOWN
    exact Nat.mul_div_cancel _ (by decide)
  rw [hrun]
  refine ⟨?_, lazy_alloc_no_frame s va⟩
  intro f fl hfree hf hmap
  rw [lazy_alloc_success s va f fl hnp hfree hf hmap]
  refine ⟨?_, ?_, rfl, ?_, ?_, rfl, rfl⟩
  · simp [walkpgdir, set_pte]
  · intro h1 h2 h3
    have hv : V2P f = f - KERNBASE := by
      unfold V2P to_uint; simp only [KERNBASE] at *; omega
    rw [pte_addr_frame (V2P f) (by rw [hv]; simp only [PGSIZE, KERNBASE] at *; omega)
      (by rw [hv]; omega), hv]
    unfold P2V
    simp only [KERNBASE] at *
    omega
  · intro k hk
    show (if f ≤ f + k ∧ f + k < f + PGSIZE then 0 else s.mem (f + k)) = 0
    rw [if_pos ⟨by omega, by omega⟩]
  · intro n hn
    show set_pte s.pgdir (PGROUNDDOWN va) _ n = s.pgdir n
    unfold set_pte
    rw [hpg, if_neg hn]

/-- C11 at two faults at `0x4010` inside the anonymous region
`[0x4000, 0x6000)`: with the free frames `0x80400000` and `0x80401000`, and
with no free frame. -/
theorem lazy_fill_anonymous_witness :
    (walkpgdir (trap_page_fault (mk_state (table [live 0x4000 0x2000 3 5]) no_pages
        [0x80400000, 0x80401000] no_files) 0x4010).pgdir (PGROUNDDOWN 0x4010)
        = some (V2P 0x80400000 ||| (PTE_W ||| PTE_U) ||| PTE_P) ∧
      (∀ k, k < PGSIZE → (trap_page_fault (mk_state (table [live 0x4000 0x2000 3 5]) no_pages
        [0x80400000, 0x80401000] no_files) 0x4010).mem (0x80400000 + k) = 0) ∧
      (∀ n, n ≠ 0x4010 / PGSIZE →
        (trap_page_fault (mk_state (table [live 0x4000 0x2000 3 5]) no_pages
          [0x80400000, 0x80401000] no_files) 0x4010).pgdir n = no_pages n) ∧
      (trap_page_fault (mk_state (table [live 0x4000 0x2000 3 5]) no_pages
        [0x80400000, 0x80401000] no_files) 0x4010).mmaps = table [live 0x4000 0x2000 3 5] ∧
      (trap_page_fault (mk_state (table [live 0x4000 0x2000 3 5]) no_pages
        [0x80400000, 0x80401000] no_files) 0x4010).killed = 0) ∧
    ((trap_page_fault (mk_state (table [live 0x4000 0x2000 3 5]) no_pages
        [] no_files) 0x4010).killed = 1 ∧
      (trap_page_fault (mk_state (table [live 0x4000 0x2000 3 5]) no_pages
        [] no_files) 0x4010).pgdir = no_pages) :=
  have h1 := (lazy_fill_anonymous
    (mk_state (table [live 0x4000 0x2000 3 5]) no_pages [0x80400000, 0x80401000] no_files)
    0x4010 (live 0x4000 0x2000 3 5) (by decide) (by decide) (by decide) (by decide)
    (by intro pte h; cases h)).1 0x80400000 [0x80401000] rfl (by decide) (Or.inr (by decide))
  have h2 := (lazy_fill_anonymous
    (mk_state (table [live 0x4000 0x2000 3 5]) no_pages [] no_files)
    0x4010 (live 0x4000 0x2000 3 5) (by decide) (by decide) (by decide) (by decide)
    (by intro pte h; cases h)).2 rfl
  ⟨⟨h1.1, h1.2.2.2.1, h1.2.2.2.2.1, h1.2.2.2.2.2.1, h1.2.2.2.2.2.2⟩, h2.1, h2.2.1⟩


/-! ## `sys_munmap` keeps the live regions disjoint -/

/-- Two spans are disjoint exactly when no address lies in both. -/
theorem disjoint_spans_iff (a b : mmap_region) :
    disjoint_spans a b ↔
      ∀ x : Int, ¬ ((a.addr ≤ x ∧ x < a.addr + a.length) ∧
        (b.addr ≤ x ∧ x < b.addr + b.length)) := by
  unfold disjoint_spans
  constructor
  · intro h x hx
    omega
  · intro h
    by_contra hc
    have h1 := h a.addr
    have h2 := h b.addr
    omega

/-- Pairwise disjointness of the live regions, stated by index. -/
theorem regions_disjoint_iff (l : List mmap_region) :
    regions_disjoint l ↔
      ∀ (a b : Nat) (x y : mmap_region), a ≠ b → l[a]? = some x → l[b]? = some y →
        live_disjoint x y := by
  unfold regions_disjoint
  rw [List.pairwise_iff_getElem]
  constructor
  · intro h a b x y hab hx hy
    obtain ⟨ha, rfl⟩ := List.getElem?_eq_some_iff.mp hx
    obtain ⟨hb, rfl⟩ := List.getElem?_eq_some_iff.mp hy
    rcases Nat.lt_or_gt_of_ne hab with hlt | hgt
    · exact h a b ha hb hlt
    · have := h b a hb ha hgt
      intro h1 h2
      have h3 := this h2 h1
      unfold disjoint_spans at h3 ⊢
      omega
  · intro h i j hi hj hij
    exact h i j _ _ (by omega) (List.getElem?_eq_getElem hi) (List.getElem?_eq_getElem hj)


/-- In a table whose live regions are non-empty, do not wrap and are pairwise
disjoint, a request that lies strictly inside the live region `mmaps[i]`
intersects no other live entry: that region is the first one the loop of
`sys_munmap` stops at. -/
theorem first_of_disjoint (l : List mmap_region) (i : Nat) (r : mmap_region) (u : Nat)
    (len : Int) (hd : regions_disjoint l) (hnw : regions_no_wrap l)
    (hpos : ∀ q ∈ l, q.is_used ≠ 0 → 0 < q.length)
    (hi : l[i]? = some r) (hlive : r.is_used ≠ 0) (hlen : 0 < len)
    (hsu : r.addr < u) (hve : u + len < r.addr + r.length) :
    ∀ (k : Nat) (q : mmap_region), k ≠ i → l[k]? = some q → q.is_used ≠ 0 →
      ¬ intersects q u len := by
  intro k q hk hq hql
  have hqm : q ∈ l := List.mem_iff_getElem?.mpr ⟨k, hq⟩
  have hrm : r ∈ l := List.mem_iff_getElem?.mpr ⟨i, hi⟩
  have h1 := (regions_disjoint_iff l).mp hd k i q r hk hq hi hql hlive
  have h2 := hnw q hqm hql
  have h3 := hnw r hrm hlive
  have h4 := hpos q hqm hql
  unfold disjoint_spans at h1
  unfold no_wrap at h2 h3
  unfold intersects to_uint
  omega

/-- The loop of `sys_munmap` either finds no live entry that the request
intersects and returns -1, or runs its body on such an entry. -/
theorem munmap_scan_cases (s : kstate) (addr : Nat) (len : Int) (l : List mmap_region)
    (n : Nat) :
    munmap_scan s addr len l n = some (-1, s) ∨
      ∃ (i : Nat) (r : mmap_region), l[i]? = some r ∧ r.is_used ≠ 0 ∧ intersects r addr len ∧
        munmap_scan s addr len l n = munmap_region s (n + i) addr len := by
  induction l generalizing n with
  | nil => exact Or.inl rfl
  | cons q rest ih =>
    unfold munmap_scan
    by_cases hq : q.is_used ≠ 0 ∧ intersects q addr len
    · rw [if_pos hq]
      exact Or.inr ⟨0, q, by simp, hq.1, hq.2, rfl⟩
    · rw [if_neg hq]
      rcases ih (n + 1) with h | ⟨i, r, h1, h2, h3, h4⟩
      · exact Or.inl h
      · refine Or.inr ⟨i + 1, r, by simpa using h1, h2, h3, ?_⟩
        rw [h4]; congr 1; omega

/-- The entry that the search for a free entry returns is not in use. -/
theorem find_free_slot_sound (l : List mmap_region) (n m : Nat)
    (h : find_free_slot l n = some m) :
    ∃ (j : Nat) (q : mmap_region), m = n + j ∧ l[j]? = some q ∧ q.is_used = 0 := by
  induction l generalizing n with
  | nil => simp [find_free_slot] at h
  | cons r rest ih =>
    unfold find_free_slot at h
    by_cases hr : r.is_used = 0
    · rw [if_pos hr] at h
      cases h
      exact ⟨0, r, rfl, by simp, hr⟩
    · rw [if_neg hr] at h
      obtain ⟨j, q, h1, h2, h3⟩ := ih (n + 1) h
      exact ⟨j + 1, q, by omega, by simpa using h2, h3⟩

/-- What the body of the loop of `sys_munmap` does to the region table when it
returns: nothing, or entry `i` is narrowed, or entry `i` is narrowed and a
free entry receives another part of the old span that starts where the first
part ends or later. -/
theorem munmap_region_shape (s : kstate) (i : Nat) (r : mmap_region) (addr : Nat) (len : Int)
    (hi : s.mmaps[i]? = some r) (hlive : r.is_used ≠ 0) (hr : intersects r addr len)
    (hnw : no_wrap r) (haddr : addr < 4294967296) (hlen0 : 0 < len)
    (hlen : len < 2147483648) (ret : Int) (s1 : kstate)
    (h : munmap_region s i addr len = some (ret, s1)) :
    (ret = 0 ∨ ret = -1) ∧
    (s1.mmaps = s.mmaps ∨
      (∃ r2, s1.mmaps = s.mmaps.set i r2 ∧ narrowed r r2) ∨
      (∃ (j : Nat) (q r2 r3 : mmap_region), s.mmaps[j]? = some q ∧ q.is_used = 0 ∧
        s1.mmaps = (s.mmaps.set j r3).set i r2 ∧ narrowed r r2 ∧ narrowed r r3 ∧
        (r2.addr : Int) + r2.length ≤ r3.addr)) := by
  obtain ⟨h1, h2, h3⟩ := hnw
  have hend_u : to_uint ((r.addr : Int) + r.length) = (r.addr + r.length).toNat := by
    unfold to_uint; omega
  obtain ⟨v, hv⟩ : ∃ v, to_uint ((addr : Int) + len) = v := ⟨_, rfl⟩
  have hvv : ((v : Int) = addr + len ∧ (addr : Int) + len < 4294967296) ∨
      ((v : Int) = addr + len - 4294967296 ∧ 4294967296 ≤ (addr : Int) + len) := by
    unfold to_uint at hv; omega
  unfold intersects at hr
  rw [hend_u, hv] at hr
  unfold munmap_region at h
  simp only [hi, hend_u, hv] at h
  rcases hsp : unmap_pages UNMAP_FUEL s (max r.addr addr) (min (r.addr + r.length).toNat v)
    with _ | sp
  · rw [hsp] at h; cases h
  · rw [hsp] at h
    have hspm : sp.mmaps = s.mmaps := unmap_pages_mmaps _ _ _ _ _ hsp
    simp only [hspm] at h
    by_cases hc1 : max r.addr addr > r.addr ∧
        min (r.addr + r.length).toNat v < (r.addr + r.length).toNat
    · rw [if_pos hc1] at h
      rcases hf : find_free_slot s.mmaps 0 with _ | j
      · rw [hf] at h
        cases h
        exact ⟨Or.inr rfl, Or.inl hspm⟩
      · rw [hf] at h
        dsimp only at h
        obtain ⟨j2, q, hj, hjq, hq0⟩ := find_free_slot_sound _ _ _ hf
        rw [Nat.zero_add] at hj
        subst hj
        have hij : j ≠ i := by
          intro hh; subst hh; rw [hi] at hjq; cases hjq; exact hlive hq0
        rw [modify_slot_eq _ j _ q hjq,
          modify_slot_eq _ i _ r (by rw [List.getElem?_set_ne hij]; exact hi)] at h
        cases h
        refine ⟨Or.inl rfl, Or.inr (Or.inr ⟨j, q, _, _, hjq, hq0, rfl, ?_, ?_, ?_⟩)⟩
        · unfold narrowed to_int; simp only; omega
        · unfold narrowed to_int; simp only; omega
        · unfold to_int; simp only; omega
    · rw [if_neg hc1] at h
      by_cases hc2 : max r.addr addr > r.addr
      · rw [if_pos hc2] at h
        have hilt : i < s.mmaps.length := (List.getElem?_eq_some_iff.mp hi).1
        rw [modify_slot_eq _ i _ r hi,
          modify_slot_eq _ i _ _ (List.getElem?_set_self hilt), List.set_set] at h
        cases h
        refine ⟨Or.inl rfl, Or.inr (Or.inl ⟨_, rfl, ?_⟩)⟩
        unfold narrowed to_int; simp only; omega
      · rw [if_neg hc2] at h
        by_cases hc3 : min (r.addr + r.length).toNat v < (r.addr + r.length).toNat
        · rw [if_pos hc3] at h
          rw [modify_slot_eq _ i _ r hi] at h
          cases h
          refine ⟨Or.inl rfl, Or.inr (Or.inl ⟨_, rfl, ?_⟩)⟩
          unfold narrowed to_int; simp only; omega
        · rw [if_neg hc3] at h
          cases h
          exact ⟨Or.inl rfl, Or.inl hspm⟩


/-- A narrowed region does not wrap when the region it was cut from does not. -/
theorem narrowed_no_wrap (r r2 : mmap_region) (hnw : no_wrap r) (h : narrowed r r2) :
    no_wrap r2 := by
  unfold no_wrap narrowed at *
  omega

/-- A narrowed region is disjoint from every region that the region it was cut
from is disjoint from. -/
theorem narrowed_disjoint (r r2 y : mmap_region) (h : narrowed r r2)
    (hd : disjoint_spans r y) : disjoint_spans r2 y ∧ disjoint_spans y r2 := by
  unfold disjoint_spans narrowed at *
  omega

/-- Narrowing the live entry `i` keeps the live regions pairwise disjoint. -/
theorem disjoint_set_one (l : List mmap_region) (i : Nat) (r r2 : mmap_region)
    (hi : l[i]? = some r) (hlive : r.is_used ≠ 0) (hn : narrowed r r2)
    (hd : regions_disjoint l) : regions_disjoint (l.set i r2) := by
  rw [regions_disjoint_iff] at hd ⊢
  intro a b x y hab hx hy
  rw [List.getElem?_set] at hx hy
  by_cases ha : i = a
  · have hb : ¬ i = b := fun hh => hab (ha.symm.trans hh)
    rw [if_pos ha] at hx
    rw [if_neg hb] at hy
    split at hx
    · cases hx
      intro _ hy2
      exact (narrowed_disjoint r r2 y hn (hd i b r y hb hi hy hlive hy2)).1
    · cases hx
  · rw [if_neg ha] at hx
    by_cases hb : i = b
    · rw [if_pos hb] at hy
      split at hy
      · cases hy
        intro hx2 _
        exact (narrowed_disjoint r r2 x hn (hd i a r x ha hi hx hlive hx2)).2
      · cases hy
    · rw [if_neg hb] at hy
      exact hd a b x y hab hx hy

/-- Narrowing the live entry `i` and storing another part of its old span in
the free entry `j`, the two parts apart from each other, keeps the live
regions pairwise disjoint. -/
theorem disjoint_set_two (l : List mmap_region) (i j : Nat) (r q r2 r3 : mmap_region)
    (hi : l[i]? = some r) (hlive : r.is_used ≠ 0) (hj : l[j]? = some q) (hq : q.is_used = 0)
    (hn2 : narrowed r r2) (hn3 : narrowed r r3)
    (h23 : (r2.addr : Int) + r2.length ≤ r3.addr)
    (hd : regions_disjoint l) : regions_disjoint ((l.set j r3).set i r2) := by
  have hij : j ≠ i := by
    intro hh; subst hh; rw [hi] at hj; cases hj; exact hlive hq
  have h23d : disjoint_spans r2 r3 ∧ disjoint_spans r3 r2 := by
    unfold disjoint_spans; omega
  have hget : ∀ (k : Nat) (x : mmap_region), ((l.set j r3).set i r2)[k]? = some x →
      (k = i ∧ x = r2) ∨ (k ≠ i ∧ k = j ∧ x = r3) ∨ (k ≠ i ∧ k ≠ j ∧ l[k]? = some x) := by
    intro k x hx
    rw [List.getElem?_set, List.getElem?_set] at hx
    by_cases hki : i = k
    · rw [if_pos hki] at hx
      split at hx
      · cases hx; exact Or.inl ⟨hki.symm, rfl⟩
      · cases hx
    · rw [if_neg hki] at hx
      by_cases hkj : j = k
      · rw [if_pos hkj] at hx
        split at hx
        · cases hx; exact Or.inr (Or.inl ⟨fun hh => hki hh.symm, hkj.symm, rfl⟩)
        · cases hx
      · rw [if_neg hkj] at hx
        exact Or.inr (Or.inr ⟨fun hh => hki hh.symm, fun hh => hkj hh.symm, hx⟩)
  rw [regions_disjoint_iff] at hd ⊢
  intro a b x y hab hx hy
  rcases hget a x hx with ⟨ha, rfl⟩ | ⟨hai, haj, rfl⟩ | ⟨hai, haj, hxa⟩ <;>
    rcases hget b y hy with ⟨hb, rfl⟩ | ⟨hbi, hbj, rfl⟩ | ⟨hbi, hbj, hyb⟩
  · exact absurd (ha.trans hb.symm) hab
  · exact fun _ _ => h23d.1
  · intro _ hy2
    exact (narrowed_disjoint r x y hn2 (hd i b r y (Ne.symm hbi) hi hyb hlive hy2)).1
  · exact fun _ _ => h23d.2
  · exact absurd (haj.trans hbj.symm) hab
  · intro _ hy2
    exact (narrowed_disjoint r x y hn3 (hd i b r y (Ne.symm hbi) hi hyb hlive hy2)).1
  · intro hx2 _
    exact (narrowed_disjoint r y x hn2 (hd i a r x (Ne.symm hai) hi hxa hlive hx2)).2
  · intro hx2 _
    exact (narrowed_disjoint r y x hn3 (hd i a r x (Ne.symm hai) hi hxa hlive hx2)).2
  · exact hd a b x y hab hxa hyb

/-- An entry of a list after an assignment is the assigned value or an old
entry. -/
theorem mem_set_cases (l : List mmap_region) (i : Nat) (r2 q : mmap_region)
    (h : q ∈ l.set i r2) : q = r2 ∨ q ∈ l := by
  obtain ⟨k, hk⟩ := List.mem_iff_getElem?.mp h
  rw [List.getElem?_set] at hk
  by_cases hik : i = k
  · rw [if_pos hik] at hk
    split at hk
    · cases hk; exact Or.inl rfl
    · cases hk
  · rw [if_neg hik] at hk
    exact Or.inr (List.mem_iff_getElem?.mpr ⟨k, hk⟩)

/-- The body of the loop of `sys_munmap` returns when the region ends at or
below the last page boundary `0xFFFFF000`. -/
theorem munmap_region_returns (s : kstate) (i : Nat) (r : mmap_region) (addr : Nat)
    (len : Int) (hi : s.mmaps[i]? = some r) (h0 : 0 ≤ (r.addr : Int) + r.length)
    (hend : (r.addr : Int) + r.length ≤ 4294963200) :
    ∃ ret s1, munmap_region s i addr len = some (ret, s1) := by
  have hend_u : to_uint ((r.addr : Int) + r.length) = (r.addr + r.length).toNat := by
    unfold to_uint; omega
  obtain ⟨sp, hsp⟩ := unmap_pages_returns UNMAP_FUEL s (max r.addr addr)
    (min (to_uint ((r.addr : Int) + r.length)) (to_uint ((addr : Int) + len)))
    (by rw [hend_u]; omega) (by rw [hend_u]; simp only [UNMAP_FUEL]; omega)
  unfold munmap_region
  simp only [hi, hsp]
  split
  · split
    · exact ⟨_, _, rfl⟩
    · exact ⟨_, _, rfl⟩
  · split
    · exact ⟨_, _, rfl⟩
    · split
      · exact ⟨_, _, rfl⟩
      · exact ⟨_, _, rfl⟩


/-- C12: let the live regions of the table be pairwise disjoint, none of them
wrapping around `2^32`, and let `addr` be a `uint` and `length` an `int`.
Whenever `sys_munmap(addr, length)` returns, it returns 0 or -1 and the live
regions of the resulting table are again pairwise disjoint (and do not wrap).
It does return when every live region ends at or below the last page boundary
`0xFFFFF000`, as page-aligned regions do. -/
theorem munmap_preserves_disjoint (s : kstate) (addr : Nat) (len : Int)
    (haddr : addr < 4294967296) (hlen : len < 2147483648)
    (hnw : regions_no_wrap s.mmaps) (hd : regions_disjoint s.mmaps) :
    (∀ ret s1, sys_munmap s addr len = some (ret, s1) →
      (ret = 0 ∨ ret = -1) ∧ regions_disjoint s1.mmaps ∧ regions_no_wrap s1.mmaps) ∧
    ((∀ q ∈ s.mmaps, q.is_used ≠ 0 → (q.addr : Int) + q.length ≤ 4294963200) →
      ∃ ret s1, sys_munmap s addr len = some (ret, s1)) := by
  constructor
  · intro ret s1 h
    unfold sys_munmap at h
    split at h
    · cases h
      exact ⟨Or.inr rfl, hd, hnw⟩
    · rename_i hvalid
      have hlen0 : 0 < len := by omega
      rcases munmap_scan_cases s addr len s.mmaps 0 with hnone | ⟨i, r, hi, hlive, hr, hrun⟩
      · rw [hnone] at h
        cases h
        exact ⟨Or.inr rfl, hd, hnw⟩
      · rw [hrun, Nat.zero_add] at h
        have hrm : r ∈ s.mmaps := List.mem_iff_getElem?.mpr ⟨i, hi⟩
        have hrw : no_wrap r := hnw r hrm hlive
        obtain ⟨hret, hshape⟩ :=
          munmap_region_shape s i r addr len hi hlive hr hrw haddr hlen0 hlen ret s1 h
        refine ⟨hret, ?_⟩
        rcases hshape with hm | ⟨r2, hm, hn⟩ | ⟨j, q, r2, r3, hj, hq, hm, hn2, hn3, h23⟩
        · rw [hm]; exact ⟨hd, hnw⟩
        · rw [hm]
          refine ⟨disjoint_set_one _ i r r2 hi hlive hn hd, ?_⟩
          intro x hx hxl
          rcases mem_set_cases _ _ _ _ hx with rfl | hx2
          · exact narrowed_no_wrap r x hrw hn
          · exact hnw x hx2 hxl
        · rw [hm]
          refine ⟨disjoint_set_two _ i j r q r2 r3 hi hlive hj hq hn2 hn3 h23 hd, ?_⟩
          intro x hx hxl
          rcases mem_set_cases _ _ _ _ hx with rfl | hx2
          · exact narrowed_no_wrap r x hrw hn2
          · rcases mem_set_cases _ _ _ _ hx2 with rfl | hx3
            · exact narrowed_no_wrap r x hrw hn3
            · exact hnw x hx3 hxl
  · intro hpage
    unfold sys_munmap
    split
    · exact ⟨_, _, rfl⟩
    · rcases munmap_scan_cases s addr len s.mmaps 0 with hnone | ⟨i, r, hi, hlive, _, hrun⟩
      · exact ⟨_, _, hnone⟩
      · rw [hrun, Nat.zero_add]
        have hrm : r ∈ s.mmaps := List.mem_iff_getElem?.mpr ⟨i, hi⟩
        exact munmap_region_returns s i r addr len hi (hnw r hrm hlive).2.1 (hpage r hrm hlive)

/-- C12 at the split of scenario S3 on a table with two live regions:
`munmap(0x5000, 0x1000)` returns, with 0 or -1, and the live regions of the
resulting table are pairwise disjoint. -/
theorem munmap_preserves_disjoint_witness :
    ∃ (ret : Int) (s1 : kstate),
      sys_munmap (mk_state (table [live 0x10000 0x1000 3 5, live 0x4000 0x3000 3 5])
        no_pages [] no_files) 0x5000 0x1000 = some (ret, s1) ∧
      (ret = 0 ∨ ret = -1) ∧ regions_disjoint s1.mmaps := by
  have h := munmap_preserves_disjoint
    (mk_state (table [live 0x10000 0x1000 3 5, live 0x4000 0x3000 3 5]) no_pages [] no_files)
    0x5000 0x1000 (by decide) (by decide) (by decide) (by decide)
  obtain ⟨ret, s1, hrun⟩ := h.2 (by decide)
  exact ⟨ret, s1, hrun, (h.1 ret s1 hrun).1, (h.1 ret s1 hrun).2.1⟩

/-- The table after the call of the instance above is pairwise disjoint, by
evaluation. -/
theorem munmap_preserves_disjoint_sample :
    (sys_munmap (mk_state (table [live 0x10000 0x1000 3 5, live 0x4000 0x3000 3 5])
        no_pages [] no_files) 0x5000 0x1000).map
      (fun r => (r.1, decide (regions_disjoint r.2.mmaps))) = some (0, true) := by
  decide

end XV6
